import Mathlib

/-!
The class bcq::ConcurrentQueue — a shallow embedding of `concurrent_queue.h`

The shared state of the class is the triple `queue_`, `capacity_`, `block_`.
Every member function takes `mu_` on entry and gives it up only inside
`condition_variable::wait` or at the end of its locked block, so the unit of
atomicity is one *pass through the critical section*: from the moment the lock
is acquired (on entry, or on wake-up from `wait`) up to the next `wait` or to
the return.  Each member function below is the function computed by one such
pass.  The guard `if (c) { while (c) wait(l); }` evaluates the same condition
`c` on entry and on every wake-up, hence one definition serves both.

`size_t` values are only compared (`==`, `<`), never added to, so they are
embedded as `Nat`.
-/

namespace bcq

/-- The two condition variables of the class. -/
inductive CondVar where
  | queue_pop_cv_
  | queue_push_cv_
deriving DecidableEq, Repr

/-- A notification issued on a condition variable after the lock is released. -/
inductive Signal where
  | notify_one (cv : CondVar)
  | notify_all (cv : CondVar)
deriving DecidableEq, Repr

/-- How a pass through a critical section of `Push`, `Pop` or `Peek` ends:
the call returns a boolean, or the thread parks in `cv.wait(l)`. -/
inductive Ret where
  | returned (b : Bool)
  | waiting (cv : CondVar)
deriving DecidableEq, Repr

/-- Whether the pass ended in `wait` instead of returning. -/
def Ret.suspends : Ret → Bool
  | .waiting _ => true
  | .returned _ => false

/-- The data members of `ConcurrentQueue<T>`; the front of `queue_` is the head
of the list. -/
structure ConcurrentQueue (T : Type) where
  queue_ : List T
  capacity_ : Nat
  block_ : Bool
deriving DecidableEq, Repr

/-- Result of a pass of `Push`. -/
structure PushResult (T : Type) where
  ret : Ret
  q : ConcurrentQueue T
  signals : List Signal
deriving DecidableEq, Repr

/-- Result of a pass of `Pop` or `Peek`; `item` is the value of the reference
argument afterwards. -/
structure PopResult (T : Type) where
  ret : Ret
  q : ConcurrentQueue T
  item : T
  signals : List Signal
deriving DecidableEq, Repr

variable {T : Type}

/-- `ConcurrentQueue(size_t capacity) : capacity_(capacity) {}` with the default
member initialisers: `queue_` empty and `block_ = true`. -/
def ConcurrentQueue.ctor (capacity : Nat) : ConcurrentQueue T :=
  { queue_ := [], capacity_ := capacity, block_ := true }

/-- `bool Empty() const { return queue_.empty(); }` -/
def Empty (q : ConcurrentQueue T) : Bool :=
  q.queue_.isEmpty

/-- `size_t Capacity() const { return capacity_; }` -/
def Capacity (q : ConcurrentQueue T) : Nat :=
  q.capacity_

/-- `size_t Size() const { return queue_.size(); }` -/
def Size (q : ConcurrentQueue T) : Nat :=
  q.queue_.length

/-- `bool Peek(T& item)`: waits on `queue_pop_cv_` while the queue is empty and
`block_` is set; otherwise copies the front into `item` when there is one and
then notifies `queue_pop_cv_` once. -/
def Peek (q : ConcurrentQueue T) (item : T) : PopResult T :=
  if q.queue_.isEmpty && q.block_ then
    { ret := .waiting .queue_pop_cv_, q := q, item := item, signals := [] }
  else
    match q.queue_ with
    | front :: _ =>
      { ret := .returned true, q := q, item := front,
        signals := [.notify_one .queue_pop_cv_] }
    | [] =>
      { ret := .returned false, q := q, item := item, signals := [] }

/-- `bool Pop(T& item)`: waits on `queue_pop_cv_` while the queue is empty and
`block_` is set; otherwise moves the front into `item` and pops it when there is
one, and then notifies `queue_push_cv_` once. -/
def Pop (q : ConcurrentQueue T) (item : T) : PopResult T :=
  if q.queue_.isEmpty && q.block_ then
    { ret := .waiting .queue_pop_cv_, q := q, item := item, signals := [] }
  else
    match q.queue_ with
    | front :: rest =>
      { ret := .returned true, q := { q with queue_ := rest }, item := front,
        signals := [.notify_one .queue_push_cv_] }
    | [] =>
      { ret := .returned false, q := q, item := item, signals := [] }

/-- `bool Push(const T& item)`: waits on `queue_push_cv_` while
`queue_.size() == capacity_` and `block_` is set; otherwise appends a copy of
`item` at the back when `queue_.size() < capacity_` and then notifies
`queue_pop_cv_` once.  The source spells the insertion `queue_.push_back(item)`;
it is embedded as what the overload is meant to do, insertion at the back of the
queue.  Whether that statement is well-formed is the subject of
`PushConstRef.body` below. -/
def PushConstRef (q : ConcurrentQueue T) (item : T) : PushResult T :=
  if q.queue_.length == q.capacity_ && q.block_ then
    { ret := .waiting .queue_push_cv_, q := q, signals := [] }
  else if q.queue_.length < q.capacity_ then
    { ret := .returned true, q := { q with queue_ := q.queue_ ++ [item] },
      signals := [.notify_one .queue_pop_cv_] }
  else
    { ret := .returned false, q := q, signals := [] }

/-- `bool Push(T&& item)`: waits on `queue_push_cv_` while
`queue_.size() == capacity_` and `block_` is set; otherwise moves `item` to the
back (`queue_.push(std::move(item))`) when `queue_.size() < capacity_` and then
notifies `queue_pop_cv_` once. -/
def Push (q : ConcurrentQueue T) (item : T) : PushResult T :=
  if q.queue_.length == q.capacity_ && q.block_ then
    { ret := .waiting .queue_push_cv_, q := q, signals := [] }
  else if q.queue_.length < q.capacity_ then
    { ret := .returned true, q := { q with queue_ := q.queue_ ++ [item] },
      signals := [.notify_one .queue_pop_cv_] }
  else
    { ret := .returned false, q := q, signals := [] }

/-- `void UnBlock()`: clears `block_` under the lock, then `notify_all` on
`queue_push_cv_` and on `queue_pop_cv_`. -/
def UnBlock (q : ConcurrentQueue T) : ConcurrentQueue T × List Signal :=
  ({ q with block_ := false },
   [.notify_all .queue_push_cv_, .notify_all .queue_pop_cv_])

/-- `void SetBlock()`: sets `block_` under the lock. -/
def SetBlock (q : ConcurrentQueue T) : ConcurrentQueue T :=
  { q with block_ := true }

/-! ## Sequences of critical-section passes -/

/-- A call of a member function that mutates or waits; the argument of `Pop`
and `Peek` is the value the reference argument holds before the call. -/
inductive Op (T : Type) where
  | PushConstRef (item : T)
  | Push (item : T)
  | Pop (item : T)
  | Peek (item : T)
  | UnBlock
  | SetBlock
deriving DecidableEq, Repr

/-- What one pass of a call did: `ret` is `none` for the `void` functions,
`out` is the value of the reference argument of `Pop`/`Peek` afterwards. -/
structure Event (T : Type) where
  op : Op T
  ret : Option Ret
  out : Option T
  signals : List Signal
deriving DecidableEq, Repr

/-- One pass of the call `op` on the shared state `q`. -/
def exec (q : ConcurrentQueue T) (op : Op T) : ConcurrentQueue T × Event T :=
  match op with
  | .PushConstRef x =>
    let r := PushConstRef q x
    (r.q, { op := op, ret := some r.ret, out := none, signals := r.signals })
  | .Push x =>
    let r := Push q x
    (r.q, { op := op, ret := some r.ret, out := none, signals := r.signals })
  | .Pop x =>
    let r := Pop q x
    (r.q, { op := op, ret := some r.ret, out := some r.item, signals := r.signals })
  | .Peek x =>
    let r := Peek q x
    (r.q, { op := op, ret := some r.ret, out := some r.item, signals := r.signals })
  | .UnBlock =>
    let r := UnBlock q
    (r.1, { op := op, ret := none, out := none, signals := r.2 })
  | .SetBlock =>
    (SetBlock q, { op := op, ret := none, out := none, signals := [] })

/-- Runs the passes of `ops` one after the other; returns the final state and
the events in the order they happened. -/
def run (q : ConcurrentQueue T) : List (Op T) → ConcurrentQueue T × List (Event T)
  | [] => (q, [])
  | op :: ops =>
    let r := exec q op
    let rs := run r.1 ops
    (rs.1, r.2 :: rs.2)

/-- Every state met while running `ops` from `q`, the first being `q`. -/
def states (q : ConcurrentQueue T) : List (Op T) → List (ConcurrentQueue T)
  | [] => [q]
  | op :: ops => q :: states (exec q op).1 ops

/-- The item of a push (either overload) that returned `true`. -/
def Event.pushed (e : Event T) : Option T :=
  match e.op, e.ret with
  | .Push x, some (.returned true) => some x
  | .PushConstRef x, some (.returned true) => some x
  | _, _ => none

/-- The value written by a `Pop` that returned `true`. -/
def Event.popped (e : Event T) : Option T :=
  match e.op, e.ret with
  | .Pop _, some (.returned true) => e.out
  | _, _ => none

/-! ## Threads sharing one queue -/

/-- The shared queue together with the calls that are parked inside `wait`. -/
structure System (T : Type) where
  shared : ConcurrentQueue T
  parked : List (Op T)
deriving DecidableEq, Repr

/-- A scheduling decision: some thread enters a call, or the parked call at
position `i` leaves `wait` (after a notification or spuriously), reacquires the
lock and evaluates its loop condition again. -/
inductive Sched (T : Type) where
  | call (op : Op T)
  | wake (i : Nat)
deriving DecidableEq, Repr

/-- Whether the event is a pass that ended in `wait`. -/
def Event.parks (e : Event T) : Bool :=
  match e.ret with
  | some r => r.suspends
  | none => false

/-- One critical-section pass chosen by the scheduler. -/
def System.step (s : System T) : Sched T → System T
  | .call op =>
    let r := exec s.shared op
    { shared := r.1, parked := if r.2.parks then s.parked ++ [op] else s.parked }
  | .wake i =>
    match s.parked.get? i with
    | none => s
    | some op =>
      let r := exec s.shared op
      { shared := r.1, parked := if r.2.parks then s.parked else s.parked.eraseIdx i }

/-- The system after a schedule. -/
def System.steps (s : System T) : List (Sched T) → System T
  | [] => s
  | d :: ds => System.steps (s.step d) ds

/-- A freshly constructed queue with no thread inside it. -/
def System.init (capacity : Nat) : System T :=
  { shared := ConcurrentQueue.ctor capacity, parked := [] }

/-- Whether the call is one of `Push`, `Pop`, `Peek`. -/
def Op.isData : Op T → Bool
  | .UnBlock => false
  | .SetBlock => false
  | _ => true

/-! ## The statements of the member functions

Each body below lists, in program order, the statements of a member function
that touch the mutex, a condition variable or a data member. -/

/-- The member functions the source calls on `queue_`. -/
inductive QueueMember where
  | empty
  | size
  | front
  | pop
  | push
  | push_back
deriving DecidableEq, Repr

/-- Whether the container adaptor `std::queue` declares the member.  Its public
member functions are `empty`, `size`, `front`, `back`, `push`, `emplace`, `pop`
and `swap`; `push_back` belongs to the underlying container only. -/
def QueueMember.declared : QueueMember → Bool
  | .push_back => false
  | _ => true

/-- Whether the member changes the queue. -/
def QueueMember.mutates : QueueMember → Bool
  | .pop => true
  | .push => true
  | .push_back => true
  | _ => false

/-- A statement of a member function body. -/
inductive Stmt where
  /-- The declaration `std::unique_lock<std::mutex> l(mu_);` -/
  | lock
  /-- The end of the scope of `l` -/
  | unlock
  /-- The call `cv.wait(l)`: the lock is held before and after it -/
  | wait (cv : CondVar)
  /-- A call `queue_.m(...)` -/
  | queue (m : QueueMember)
  | read_block
  | write_block
  | read_capacity
  | notify (s : Signal)
deriving DecidableEq, Repr

/-- Lines 82-104. -/
def Peek.body : List Stmt :=
  [.lock, .queue .empty, .read_block, .queue .empty, .read_block, .wait .queue_pop_cv_,
   .queue .empty, .queue .front, .unlock, .notify (.notify_one .queue_pop_cv_)]

/-- Lines 107-130. -/
def Pop.body : List Stmt :=
  [.lock, .queue .empty, .read_block, .queue .empty, .read_block, .wait .queue_pop_cv_,
   .queue .empty, .queue .front, .queue .pop, .unlock,
   .notify (.notify_one .queue_push_cv_)]

/-- Lines 133-157; the insertion is written `queue_.push_back(item)`. -/
def PushConstRef.body : List Stmt :=
  [.lock, .queue .size, .read_capacity, .read_block, .queue .size, .read_capacity,
   .read_block, .wait .queue_push_cv_, .queue .size, .read_capacity, .queue .push_back,
   .unlock, .notify (.notify_one .queue_pop_cv_)]

/-- Lines 160-184; the insertion is written `queue_.push(std::move(item))`. -/
def Push.body : List Stmt :=
  [.lock, .queue .size, .read_capacity, .read_block, .queue .size, .read_capacity,
   .read_block, .wait .queue_push_cv_, .queue .size, .read_capacity, .queue .push,
   .unlock, .notify (.notify_one .queue_pop_cv_)]

/-- Lines 187-195. -/
def UnBlock.body : List Stmt :=
  [.lock, .write_block, .unlock, .notify (.notify_all .queue_push_cv_),
   .notify (.notify_all .queue_pop_cv_)]

/-- Lines 198-201. -/
def SetBlock.body : List Stmt :=
  [.lock, .write_block, .unlock]

/-- Lines 204-206. -/
def Empty.body : List Stmt :=
  [.queue .empty]

/-- Lines 209-211. -/
def Capacity.body : List Stmt :=
  [.read_capacity]

/-- Lines 214-216. -/
def Size.body : List Stmt :=
  [.queue .size]

/-- Whether the statement reads or writes the buffer or the mode flag. -/
def Stmt.touchesShared : Stmt → Bool
  | .queue _ => true
  | .read_block => true
  | .write_block => true
  | _ => false

/-- Whether the statement writes the buffer. -/
def Stmt.writesQueue : Stmt → Bool
  | .queue m => m.mutates
  | _ => false

/-- Whether the statement writes the mode flag. -/
def Stmt.writesBlock : Stmt → Bool
  | .write_block => true
  | _ => false

/-- Whether every member the statement calls on `queue_` is declared by
`std::queue`. -/
def Stmt.wellFormed : Stmt → Bool
  | .queue m => m.declared
  | _ => true

/-- Walks a body with the flag `held` (whether `mu_` is held) and checks that
each statement touching the buffer or the mode flag runs while it is held. -/
def lockDiscipline : Bool → List Stmt → Bool
  | _, [] => true
  | _, .lock :: rest => lockDiscipline true rest
  | _, .unlock :: rest => lockDiscipline false rest
  | held, st :: rest => (!st.touchesShared || held) && lockDiscipline held rest

/-! ## Facts about one pass and about sequences of passes -/

theorem exec_capacity (q : ConcurrentQueue T) (op : Op T) :
    (exec q op).1.capacity_ = q.capacity_ := by
  cases op <;> simp only [exec, Push, PushConstRef, Pop, Peek, UnBlock, SetBlock]
  · split_ifs <;> rfl
  · split_ifs <;> rfl
  · split_ifs
    · rfl
    · cases q.queue_ <;> rfl
  · split_ifs
    · rfl
    · cases q.queue_ <;> rfl

theorem exec_size_le (q : ConcurrentQueue T) (op : Op T) (h : Size q ≤ Capacity q) :
    Size (exec q op).1 ≤ Capacity (exec q op).1 := by
  obtain ⟨buf, cap, mode⟩ := q
  simp only [Size, Capacity] at h
  cases op <;> simp only [exec, Push, PushConstRef, Pop, Peek, UnBlock, SetBlock, Size, Capacity]
  · split_ifs with h1 h2
    · exact h
    · simp only [List.length_append, List.length_singleton]; omega
    · exact h
  · split_ifs with h1 h2
    · exact h
    · simp only [List.length_append, List.length_singleton]; omega
    · exact h
  · split_ifs
    · exact h
    · cases buf with
      | nil => exact h
      | cons y ys => simp only [List.length_cons] at h ⊢; omega
  · split_ifs
    · exact h
    · cases buf <;> exact h
  · exact h
  · exact h

theorem ctor_size_le (c : Nat) :
    Size (ConcurrentQueue.ctor c : ConcurrentQueue T) ≤
      Capacity (ConcurrentQueue.ctor c : ConcurrentQueue T) := by
  simp [Size, Capacity, ConcurrentQueue.ctor]

theorem run_capacity (q : ConcurrentQueue T) (ops : List (Op T)) :
    (run q ops).1.capacity_ = q.capacity_ := by
  induction ops generalizing q with
  | nil => rfl
  | cons op ops ih => simp only [run]; rw [ih, exec_capacity]

theorem run_size_le (q : ConcurrentQueue T) (ops : List (Op T)) (h : Size q ≤ Capacity q) :
    Size (run q ops).1 ≤ Capacity (run q ops).1 := by
  induction ops generalizing q with
  | nil => exact h
  | cons op ops ih => simp only [run]; exact ih _ (exec_size_le q op h)

theorem states_size_le (q : ConcurrentQueue T) (ops : List (Op T)) (h : Size q ≤ Capacity q) :
    ∀ s ∈ states q ops, Size s ≤ Capacity s := by
  induction ops generalizing q with
  | nil =>
    intro s hs
    simp only [states, List.mem_singleton] at hs
    exact hs ▸ h
  | cons op ops ih =>
    intro s hs
    simp only [states, List.mem_cons] at hs
    rcases hs with rfl | hs
    · exact h
    · exact ih _ (exec_size_le q op h) s hs

theorem step_shared (s : System T) (d : Sched T) :
    (s.step d).shared = s.shared ∨ ∃ op, (s.step d).shared = (exec s.shared op).1 := by
  cases d with
  | call op => exact Or.inr ⟨op, rfl⟩
  | wake i =>
    simp only [System.step]
    cases s.parked.get? i with
    | none => exact Or.inl rfl
    | some op => exact Or.inr ⟨op, rfl⟩

theorem step_size_le (s : System T) (d : Sched T) (h : Size s.shared ≤ Capacity s.shared) :
    Size (s.step d).shared ≤ Capacity (s.step d).shared := by
  rcases step_shared s d with e | ⟨op, e⟩
  · rw [e]; exact h
  · rw [e]; exact exec_size_le _ op h

theorem steps_size_le (s : System T) (ds : List (Sched T))
    (h : Size s.shared ≤ Capacity s.shared) :
    Size (s.steps ds).shared ≤ Capacity (s.steps ds).shared := by
  induction ds generalizing s with
  | nil => exact h
  | cons d ds ih => simp only [System.steps]; exact ih _ (step_size_le s d h)

theorem step_capacity (s : System T) (d : Sched T) :
    (s.step d).shared.capacity_ = s.shared.capacity_ := by
  rcases step_shared s d with e | ⟨op, e⟩
  · rw [e]
  · rw [e, exec_capacity]

theorem steps_capacity (s : System T) (ds : List (Sched T)) :
    (s.steps ds).shared.capacity_ = s.shared.capacity_ := by
  induction ds generalizing s with
  | nil => rfl
  | cons d ds ih => simp only [System.steps]; rw [ih, step_capacity]

theorem exec_fifo (q : ConcurrentQueue T) (op : Op T) :
    q.queue_ ++ (exec q op).2.pushed.toList =
      (exec q op).2.popped.toList ++ (exec q op).1.queue_ := by
  obtain ⟨buf, cap, mode⟩ := q
  cases op <;>
    simp only [exec, Push, PushConstRef, Pop, Peek, UnBlock, SetBlock, Event.pushed,
      Event.popped]
  · split_ifs <;> simp
  · split_ifs <;> simp
  · split_ifs
    · simp
    · cases buf <;> simp
  · split_ifs
    · simp
    · cases buf <;> simp
  · simp
  · simp

theorem run_fifo (q : ConcurrentQueue T) (ops : List (Op T)) :
    q.queue_ ++ (run q ops).2.filterMap Event.pushed =
      (run q ops).2.filterMap Event.popped ++ (run q ops).1.queue_ := by
  induction ops generalizing q with
  | nil => simp [run]
  | cons op ops ih =>
    have hc : ∀ (f : Event T → Option T) (e : Event T) (l : List (Event T)),
        List.filterMap f (e :: l) = (f e).toList ++ List.filterMap f l := by
      intro f e l
      cases h : f e <;> simp [List.filterMap_cons, h]
    simp only [run]
    rw [hc, hc, ← List.append_assoc, exec_fifo q op, List.append_assoc, ih (exec q op).1,
      List.append_assoc]

theorem run_pushes (q : ConcurrentQueue T) (items : List T)
    (h : q.queue_.length + items.length ≤ q.capacity_) :
    (run q (items.map Op.Push)).1 = { q with queue_ := q.queue_ ++ items } ∧
      (run q (items.map Op.Push)).2.map Event.ret =
        List.replicate items.length (some (.returned true)) := by
  induction items generalizing q with
  | nil => simp [run]
  | cons x xs ih =>
    simp only [List.length_cons] at h
    have hlt : q.queue_.length < q.capacity_ := by omega
    have hne : ¬ (q.queue_.length = q.capacity_) := by omega
    have hp : Push q x =
        ⟨.returned true, { q with queue_ := q.queue_ ++ [x] }, [.notify_one .queue_pop_cv_]⟩ := by
      simp [Push, hlt, hne]
    have hx : exec q (Op.Push x) = ({ q with queue_ := q.queue_ ++ [x] },
        ⟨Op.Push x, some (.returned true), none, [.notify_one .queue_pop_cv_]⟩) := by
      simp only [exec, hp]
    have ih2 := ih { q with queue_ := q.queue_ ++ [x] } (by
      simp only [List.length_append, List.length_singleton]; omega)
    simp only [List.map_cons, run, hx, List.length_cons, List.replicate_succ]
    refine ⟨?_, ?_⟩
    · rw [ih2.1]; simp
    · rw [ih2.2]

theorem run_pops (q : ConcurrentQueue T) (outs : List T)
    (h : outs.length ≤ q.queue_.length) :
    (run q (outs.map Op.Pop)).1 = { q with queue_ := q.queue_.drop outs.length } ∧
      (run q (outs.map Op.Pop)).2.map Event.ret =
        List.replicate outs.length (some (.returned true)) ∧
      (run q (outs.map Op.Pop)).2.map Event.out = (q.queue_.take outs.length).map some := by
  induction outs generalizing q with
  | nil => simp [run]
  | cons o os ih =>
    obtain ⟨buf, cap, mode⟩ := q
    cases buf with
    | nil => simp at h
    | cons y ys =>
      simp only [List.length_cons, Nat.add_le_add_iff_right] at h
      have hx : exec (⟨y :: ys, cap, mode⟩ : ConcurrentQueue T) (Op.Pop o) =
          (⟨ys, cap, mode⟩,
            ⟨Op.Pop o, some (.returned true), some y, [.notify_one .queue_push_cv_]⟩) := by
        simp [exec, Pop]
      have ih2 := ih ⟨ys, cap, mode⟩ h
      simp only [List.map_cons, run, hx, List.length_cons, List.replicate_succ,
        List.drop_succ_cons, List.take_succ_cons]
      refine ⟨ih2.1, ?_, ?_⟩
      · rw [ih2.2.1]
      · rw [ih2.2.2]

theorem exec_mode_irrelevant (buf : List T) (c : Nat) (op : Op T) (hle : buf.length ≤ c)
    (hd : op.isData = true)
    (hnp : (exec (⟨buf, c, true⟩ : ConcurrentQueue T) op).2.parks = false) :
    (exec (⟨buf, c, false⟩ : ConcurrentQueue T) op).2 =
        (exec (⟨buf, c, true⟩ : ConcurrentQueue T) op).2 ∧
      (exec (⟨buf, c, false⟩ : ConcurrentQueue T) op).1 =
        ⟨(exec (⟨buf, c, true⟩ : ConcurrentQueue T) op).1.queue_, c, false⟩ ∧
      (exec (⟨buf, c, true⟩ : ConcurrentQueue T) op).1 =
        ⟨(exec (⟨buf, c, true⟩ : ConcurrentQueue T) op).1.queue_, c, true⟩ ∧
      (exec (⟨buf, c, true⟩ : ConcurrentQueue T) op).2.ret = some (.returned true) ∧
      (exec (⟨buf, c, true⟩ : ConcurrentQueue T) op).1.queue_.length ≤ c := by
  cases op with
  | PushConstRef x =>
    simp only [exec, PushConstRef, Event.parks] at hnp ⊢
    by_cases h : buf.length = c
    · simp [h, Ret.suspends] at hnp
    · have hlt : buf.length < c := by omega
      simp [h, hlt]
      omega
  | Push x =>
    simp only [exec, Push, Event.parks] at hnp ⊢
    by_cases h : buf.length = c
    · simp [h, Ret.suspends] at hnp
    · have hlt : buf.length < c := by omega
      simp [h, hlt]
      omega
  | Pop x =>
    cases buf with
    | nil => simp [exec, Pop, Event.parks, Ret.suspends] at hnp
    | cons y ys =>
      simp only [List.length_cons] at hle
      simp [exec, Pop]
      omega
  | Peek x =>
    cases buf with
    | nil => simp [exec, Peek, Event.parks, Ret.suspends] at hnp
    | cons y ys => simpa [exec, Peek] using hle
  | UnBlock => simp [Op.isData] at hd
  | SetBlock => simp [Op.isData] at hd

theorem exec_Push_full_blocking (q : ConcurrentQueue T) (x : T)
    (hfull : q.queue_.length = q.capacity_) (hm : q.block_ = true) :
    exec q (Op.Push x) = (q, ⟨Op.Push x, some (.waiting .queue_push_cv_), none, []⟩) := by
  simp [exec, Push, hfull, hm]

theorem calls_park_pushes (q : ConcurrentQueue T) (ps : List (Op T)) (xs : List T)
    (hfull : q.queue_.length = q.capacity_) (hm : q.block_ = true) :
    (⟨q, ps⟩ : System T).steps (xs.map (fun x => Sched.call (Op.Push x))) =
      ⟨q, ps ++ xs.map Op.Push⟩ := by
  induction xs generalizing ps with
  | nil => simp [System.steps]
  | cons x xs ih =>
    simp only [List.map_cons, System.steps, System.step]
    rw [exec_Push_full_blocking q x hfull hm]
    simp only [Event.parks, Ret.suspends, if_true]
    rw [ih]
    simp

theorem wake_full_blocking (q : ConcurrentQueue T) (ys : List T) (j : Nat)
    (hfull : q.queue_.length = q.capacity_) (hm : q.block_ = true) :
    (⟨q, ys.map Op.Push⟩ : System T).step (.wake j) = ⟨q, ys.map Op.Push⟩ := by
  cases h : (ys.map (Op.Push : T → Op T)).get? j with
  | none => simp only [System.step, h]
  | some op =>
    obtain ⟨y, -, rfl⟩ := List.mem_map.mp (List.get?_mem h)
    simp only [System.step, h]
    rw [exec_Push_full_blocking q y hfull hm]
    simp [Event.parks, Ret.suspends]

theorem wakes_full_blocking (q : ConcurrentQueue T) (ys : List T) (ws : List Nat)
    (hfull : q.queue_.length = q.capacity_) (hm : q.block_ = true) :
    (⟨q, ys.map Op.Push⟩ : System T).steps (ws.map Sched.wake) = ⟨q, ys.map Op.Push⟩ := by
  induction ws with
  | nil => rfl
  | cons j ws ih =>
    simp only [List.map_cons, System.steps]
    rw [wake_full_blocking q ys j hfull hm]
    exact ih

theorem get?_length_append {α : Type} (pre post : List α) (x : α) :
    (pre ++ x :: post).get? pre.length = some x := by
  induction pre with
  | nil => rfl
  | cons a pre ih => simpa using ih

theorem eraseIdx_length_append {α : Type} (pre post : List α) (x : α) :
    (pre ++ x :: post).eraseIdx pre.length = pre ++ post := by
  induction pre with
  | nil => rfl
  | cons a pre ih => simpa using ih

/-- C4: in Unblocked mode with `Size() == Capacity()`, `Push(item)` (either
overload) returns `false` without waiting and leaves buffer, capacity and mode
as they were; no item is inserted. -/
theorem Push_full_unblocked (q : ConcurrentQueue T) (item : T)
    (hmode : q.block_ = false) (hfull : Size q = Capacity q) :
    (Push q item).ret = .returned false ∧ (Push q item).ret.suspends = false ∧
      (Push q item).q.queue_ = q.queue_ ∧ (Push q item).q.capacity_ = q.capacity_ ∧
      (Push q item).q.block_ = q.block_ ∧
      (PushConstRef q item).ret = .returned false ∧ (PushConstRef q item).q = q := by
  simp only [Size, Capacity] at hfull
  simp [Push, PushConstRef, hmode, hfull, Ret.suspends]

/-- Witness of C4: capacity 2, buffer `[1, 2]`, Unblocked, pushing 3. -/
theorem Push_full_unblocked_witness :
    (Push (⟨[1, 2], 2, false⟩ : ConcurrentQueue Nat) 3).ret = .returned false ∧
      (Push (⟨[1, 2], 2, false⟩ : ConcurrentQueue Nat) 3).q.queue_ = [1, 2] :=
  have h := Push_full_unblocked (⟨[1, 2], 2, false⟩ : ConcurrentQueue Nat) 3 rfl rfl
  ⟨h.1, h.2.2.1⟩

/-- C5: in Unblocked mode with an empty buffer, `Pop(out)` returns `false`
without waiting, leaves `out` as it was, and leaves buffer, capacity and mode
unchanged. -/
theorem Pop_empty_unblocked (q : ConcurrentQueue T) (out : T)
    (hmode : q.block_ = false) (hempty : q.queue_ = []) :
    (Pop q out).ret = .returned false ∧ (Pop q out).ret.suspends = false ∧
      (Pop q out).item = out ∧ (Pop q out).q.queue_ = q.queue_ ∧
      (Pop q out).q.capacity_ = q.capacity_ ∧ (Pop q out).q.block_ = q.block_ := by
  simp [Pop, hmode, hempty, Ret.suspends]

/-- Witness of C5: capacity 3, empty buffer, Unblocked, `out` holding 7. -/
theorem Pop_empty_unblocked_witness :
    (Pop (⟨[], 3, false⟩ : ConcurrentQueue Nat) 7).ret = .returned false ∧
      (Pop (⟨[], 3, false⟩ : ConcurrentQueue Nat) 7).item = 7 :=
  have h := Pop_empty_unblocked (⟨[], 3, false⟩ : ConcurrentQueue Nat) 7 rfl rfl
  ⟨h.1, h.2.2.1⟩

/-- C6: on a non-empty buffer `Peek(a)` returns `true`, writes the head to `a`
and leaves the queue (hence `Size()`) unchanged; the `Pop(b)` issued next
returns `true` with `b == a`, removes exactly the head, and only then is
`Size()` one less than before. -/
theorem Peek_then_Pop (q : ConcurrentQueue T) (a b : T) (hne : q.queue_ ≠ []) :
    (Peek q a).ret = .returned true ∧
      some (Peek q a).item = q.queue_.head? ∧
      (Peek q a).q = q ∧ Size (Peek q a).q = Size q ∧
      (Pop (Peek q a).q b).ret = .returned true ∧
      (Pop (Peek q a).q b).item = (Peek q a).item ∧
      (Pop (Peek q a).q b).q.queue_ = q.queue_.tail ∧
      Size (Pop (Peek q a).q b).q + 1 = Size q := by
  obtain ⟨buf, cap, mode⟩ := q
  cases buf with
  | nil => exact absurd rfl hne
  | cons x rest => simp [Peek, Pop, Size]

/-- Witness of C6: capacity 1 holding the single value 9, Blocking mode. -/
theorem Peek_then_Pop_witness :
    (Peek (⟨[9], 1, true⟩ : ConcurrentQueue Nat) 0).item = 9 ∧
      (Pop (Peek (⟨[9], 1, true⟩ : ConcurrentQueue Nat) 0).q 0).item = 9 ∧
      Empty (Pop (Peek (⟨[9], 1, true⟩ : ConcurrentQueue Nat) 0).q 0).q = true :=
  have h := Peek_then_Pop (⟨[9], 1, true⟩ : ConcurrentQueue Nat) 0 0 (by decide)
  ⟨by decide, h.2.2.2.2.2.1.trans (by decide), by decide⟩

/-- C7: with capacity at least 1, in either mode, on an empty buffer `Push(x)`
returns `true`, the following `Pop(out)` returns `true` with `out == x`, and the
state afterwards is the state before the `Push`. -/
theorem Push_Pop_roundtrip (c : Nat) (mode : Bool) (x out : T) (hc : 1 ≤ c) :
    (Push (⟨[], c, mode⟩ : ConcurrentQueue T) x).ret = .returned true ∧
      (Pop (Push (⟨[], c, mode⟩ : ConcurrentQueue T) x).q out).ret = .returned true ∧
      (Pop (Push (⟨[], c, mode⟩ : ConcurrentQueue T) x).q out).item = x ∧
      (Pop (Push (⟨[], c, mode⟩ : ConcurrentQueue T) x).q out).q = ⟨[], c, mode⟩ := by
  have h0 : ¬ (0 = c) := by omega
  have h1 : 0 < c := by omega
  simp [Push, Pop, h0, h1]

/-- Witness of C7, the demo program: capacity 5, `Push(42)`, `pop_value`
initially 0 and 42 after `Pop`. -/
theorem Push_Pop_roundtrip_witness :
    (Pop (Push (ConcurrentQueue.ctor 5 : ConcurrentQueue Int) 42).q 0).item = 42 ∧
      (Pop (Push (ConcurrentQueue.ctor 5 : ConcurrentQueue Int) 42).q 0).q =
        ConcurrentQueue.ctor 5 :=
  have h := Push_Pop_roundtrip 5 true (42 : Int) 0 (by decide)
  ⟨h.2.2.1, h.2.2.2⟩

/-- C8: `Push` (either overload) ends in `wait` exactly when
`Size() == Capacity()` and the mode is Blocking; `Pop` and `Peek` end in `wait`
exactly when the buffer is empty and the mode is Blocking; in every other state
the pass returns a boolean. -/
theorem suspension_points (q : ConcurrentQueue T) (x : T) :
    ((Push q x).ret = .waiting .queue_push_cv_ ↔ (Size q = Capacity q ∧ q.block_ = true)) ∧
    ((PushConstRef q x).ret = .waiting .queue_push_cv_ ↔
      (Size q = Capacity q ∧ q.block_ = true)) ∧
    ((Pop q x).ret = .waiting .queue_pop_cv_ ↔ (Empty q = true ∧ q.block_ = true)) ∧
    ((Peek q x).ret = .waiting .queue_pop_cv_ ↔ (Empty q = true ∧ q.block_ = true)) ∧
    (¬ (Size q = Capacity q ∧ q.block_ = true) →
      (∃ b, (Push q x).ret = .returned b) ∧ (∃ b, (PushConstRef q x).ret = .returned b)) ∧
    (¬ (Empty q = true ∧ q.block_ = true) →
      (∃ b, (Pop q x).ret = .returned b) ∧ (∃ b, (Peek q x).ret = .returned b)) := by
  obtain ⟨buf, cap, mode⟩ := q
  refine ⟨?_, ?_, ?_, ?_, ?_, ?_⟩
  · simp only [Push, Size, Capacity]
    split_ifs with h1 h2 <;> simp_all
  · simp only [PushConstRef, Size, Capacity]
    split_ifs with h1 h2 <;> simp_all
  · cases buf <;> cases mode <;> simp [Pop, Empty]
  · cases buf <;> cases mode <;> simp [Peek, Empty]
  · intro h
    simp only [Push, PushConstRef, Size, Capacity] at h ⊢
    split_ifs with h1 h2 <;> simp_all
  · intro h
    cases buf <;> cases mode <;> simp_all [Pop, Peek, Empty]

/-- Witness of C8: a full queue of capacity 1 parks a `Push` in Blocking mode
and lets it return in Unblocked mode; an empty one parks `Pop` and `Peek` in
Blocking mode. -/
theorem suspension_points_witness :
    (Push (⟨[4], 1, true⟩ : ConcurrentQueue Nat) 5).ret = .waiting .queue_push_cv_ ∧
      (∃ b, (Push (⟨[4], 1, false⟩ : ConcurrentQueue Nat) 5).ret = .returned b) ∧
      (Pop (⟨[], 1, true⟩ : ConcurrentQueue Nat) 5).ret = .waiting .queue_pop_cv_ ∧
      (Peek (⟨[], 1, true⟩ : ConcurrentQueue Nat) 5).ret = .waiting .queue_pop_cv_ :=
  ⟨(suspension_points (⟨[4], 1, true⟩ : ConcurrentQueue Nat) 5).1.mpr ⟨rfl, rfl⟩,
   ((suspension_points (⟨[4], 1, false⟩ : ConcurrentQueue Nat) 5).2.2.2.2.1
      (by decide)).1,
   (suspension_points (⟨[], 1, true⟩ : ConcurrentQueue Nat) 5).2.2.1.mpr ⟨rfl, rfl⟩,
   (suspension_points (⟨[], 1, true⟩ : ConcurrentQueue Nat) 5).2.2.2.1.mpr ⟨rfl, rfl⟩⟩

/-! ## Sequences of calls -/

/-- C1 (FIFO law): from a freshly constructed queue of capacity `c`, pushing
`N <= c` items in list order returns `true` every time, and the `N` calls of
`Pop` that follow all return `true` and write the items in exactly the order
they were pushed, leaving the queue empty.  `outs` holds the values of the
reference arguments before each `Pop`. -/
theorem fifo_law (c : Nat) (items outs : List T) (hN : items.length ≤ c)
    (hout : outs.length = items.length) :
    (run (ConcurrentQueue.ctor c) (items.map Op.Push)).2.map Event.ret =
        List.replicate items.length (some (.returned true)) ∧
      (run (run (ConcurrentQueue.ctor c) (items.map Op.Push)).1 (outs.map Op.Pop)).2.map
          Event.ret = List.replicate items.length (some (.returned true)) ∧
      (run (run (ConcurrentQueue.ctor c) (items.map Op.Push)).1 (outs.map Op.Pop)).2.map
          Event.out = items.map some ∧
      Empty (run (run (ConcurrentQueue.ctor c) (items.map Op.Push)).1
          (outs.map Op.Pop)).1 = true := by
  have hpush := run_pushes (ConcurrentQueue.ctor c : ConcurrentQueue T) items (by
    simpa [ConcurrentQueue.ctor] using hN)
  have hq : (run (ConcurrentQueue.ctor c) (items.map Op.Push)).1 =
      (⟨items, c, true⟩ : ConcurrentQueue T) := by
    rw [hpush.1]; simp [ConcurrentQueue.ctor]
  have hpop := run_pops (⟨items, c, true⟩ : ConcurrentQueue T) outs (by simp [hout])
  rw [hq]
  refine ⟨hpush.2, ?_, ?_, ?_⟩
  · rw [hpop.2.1, hout]
  · rw [hpop.2.2, hout]; simp
  · rw [hpop.1, hout]; simp [Empty]

/-- Witness of C1: capacity 5, the integers 1..5 pushed and popped back in that
order. -/
theorem fifo_law_witness :
    (run (run (ConcurrentQueue.ctor 5) ([1, 2, 3, 4, 5].map Op.Push)).1
        ([0, 0, 0, 0, 0].map Op.Pop)).2.map Event.out =
      ([1, 2, 3, 4, 5] : List Nat).map some :=
  (fifo_law 5 ([1, 2, 3, 4, 5] : List Nat) [0, 0, 0, 0, 0] (by decide) (by decide)).2.2.1

/-- C2 (no reordering, duplication or drop): after any finite sequence of
Push/Pop/Peek/UnBlock/SetBlock passes on a freshly constructed queue, the values
written by the Pops that returned `true`, followed by the buffer from head to
tail, are the items of the Pushes that returned `true`, in push order. -/
theorem accepted_eq_popped_append_buffer (c : Nat) (ops : List (Op T)) :
    (run (ConcurrentQueue.ctor c) ops).2.filterMap Event.popped ++
        (run (ConcurrentQueue.ctor c) ops).1.queue_ =
      (run (ConcurrentQueue.ctor c) ops).2.filterMap Event.pushed := by
  have h := run_fifo (ConcurrentQueue.ctor c : ConcurrentQueue T) ops
  simpa [ConcurrentQueue.ctor] using h.symm

/-- C3 (capacity bound): for every capacity, 0 included, `Size() <= Capacity()`
holds in every state reached from a freshly constructed queue, both along any
sequence of passes and under any schedule of entering and woken threads. -/
theorem size_le_capacity (c : Nat) (ops : List (Op T)) (ds : List (Sched T)) :
    (∀ s ∈ states (ConcurrentQueue.ctor c) ops, Size s ≤ Capacity s) ∧
      Size ((System.init c).steps ds).shared ≤ Capacity ((System.init c).steps ds).shared :=
  ⟨states_size_le _ ops (ctor_size_le c), steps_size_le _ ds (ctor_size_le c)⟩

/-- C9 (meaning of `false`): on every state reachable from construction, a
`Push` pass (either overload) that returns `false` saw `Size() == Capacity()`
and Unblocked mode; a `Pop` or `Peek` pass that returns `false` saw an empty
buffer and Unblocked mode; hence in Blocking mode no pass returns `false`. -/
theorem false_return_meaning (c : Nat) (ds : List (Sched T)) (x : T) :
    ((Push ((System.init c).steps ds).shared x).ret = .returned false →
      Size ((System.init c).steps ds).shared = Capacity ((System.init c).steps ds).shared ∧
        ((System.init c).steps ds).shared.block_ = false) ∧
    ((PushConstRef ((System.init c).steps ds).shared x).ret = .returned false →
      Size ((System.init c).steps ds).shared = Capacity ((System.init c).steps ds).shared ∧
        ((System.init c).steps ds).shared.block_ = false) ∧
    ((Pop ((System.init c).steps ds).shared x).ret = .returned false →
      Empty ((System.init c).steps ds).shared = true ∧
        ((System.init c).steps ds).shared.block_ = false) ∧
    ((Peek ((System.init c).steps ds).shared x).ret = .returned false →
      Empty ((System.init c).steps ds).shared = true ∧
        ((System.init c).steps ds).shared.block_ = false) ∧
    (((System.init c).steps ds).shared.block_ = true →
      (Push ((System.init c).steps ds).shared x).ret ≠ .returned false ∧
      (PushConstRef ((System.init c).steps ds).shared x).ret ≠ .returned false ∧
      (Pop ((System.init c).steps ds).shared x).ret ≠ .returned false ∧
      (Peek ((System.init c).steps ds).shared x).ret ≠ .returned false) := by
  have hle := steps_size_le (System.init c : System T) ds (ctor_size_le c)
  generalize ((System.init c : System T).steps ds).shared = q at hle ⊢
  obtain ⟨buf, cap, mode⟩ := q
  simp only [Size, Capacity] at hle
  have hpush : (Push (⟨buf, cap, mode⟩ : ConcurrentQueue T) x).ret = .returned false →
      buf.length = cap ∧ mode = false := by
    simp only [Push]
    split_ifs with h1 h2
    · simp
    · simp
    · intro _
      have : buf.length = cap := by omega
      cases mode <;> simp_all
  have hpushc : (PushConstRef (⟨buf, cap, mode⟩ : ConcurrentQueue T) x).ret = .returned false →
      buf.length = cap ∧ mode = false := by
    simp only [PushConstRef]
    split_ifs with h1 h2
    · simp
    · simp
    · intro _
      have : buf.length = cap := by omega
      cases mode <;> simp_all
  have hpop : (Pop (⟨buf, cap, mode⟩ : ConcurrentQueue T) x).ret = .returned false →
      buf.isEmpty = true ∧ mode = false := by
    cases buf <;> cases mode <;> simp [Pop]
  have hpeek : (Peek (⟨buf, cap, mode⟩ : ConcurrentQueue T) x).ret = .returned false →
      buf.isEmpty = true ∧ mode = false := by
    cases buf <;> cases mode <;> simp [Peek]
  refine ⟨hpush, hpushc, hpop, hpeek, ?_⟩
  intro hb
  simp only at hb
  refine ⟨fun h => ?_, fun h => ?_, fun h => ?_, fun h => ?_⟩
  · simpa [hb] using (hpush h).2
  · simpa [hb] using (hpushc h).2
  · simpa [hb] using (hpop h).2
  · simpa [hb] using (hpeek h).2

/-- Witness of C9: capacity 0 after `UnBlock()`; `Push(7)` returns `false` on a
queue that is full and Unblocked. -/
theorem false_return_meaning_witness :
    (Push ((System.init 0).steps [Sched.call Op.UnBlock]).shared (7 : Nat)).ret =
        .returned false ∧
      Size ((System.init 0).steps [Sched.call (Op.UnBlock : Op Nat)]).shared =
        Capacity ((System.init 0).steps [Sched.call (Op.UnBlock : Op Nat)]).shared ∧
      ((System.init 0).steps [Sched.call (Op.UnBlock : Op Nat)]).shared.block_ = false :=
  ⟨by decide,
   (false_return_meaning 0 [Sched.call (Op.UnBlock : Op Nat)] 7).1 (by decide)⟩

/-- C10 (construction, immutable capacity): a queue constructed with capacity
`c` is empty, of size 0, in Blocking mode and reports `Capacity() == c`; after
any finite sequence of Push/Pop/Peek/UnBlock/SetBlock passes, under any
schedule, `Capacity()` still returns `c`. -/
theorem ctor_and_capacity (c : Nat) (ops : List (Op T)) (ds : List (Sched T)) :
    Empty (ConcurrentQueue.ctor c : ConcurrentQueue T) = true ∧
      Size (ConcurrentQueue.ctor c : ConcurrentQueue T) = 0 ∧
      (ConcurrentQueue.ctor c : ConcurrentQueue T).block_ = true ∧
      Capacity (ConcurrentQueue.ctor c : ConcurrentQueue T) = c ∧
      Capacity (run (ConcurrentQueue.ctor c) ops).1 = c ∧
      Capacity ((System.init c).steps ds).shared = c := by
  refine ⟨rfl, rfl, rfl, rfl, ?_, ?_⟩
  · simp only [Capacity]; rw [run_capacity]; rfl
  · simp only [Capacity]; rw [steps_capacity]; rfl

/-! ## The mode flag -/

/-- C11: `UnBlock()` yields a state in Unblocked mode with the buffer and the
capacity unchanged, and a second `UnBlock()` yields the same state (and the same
two broadcasts) as the first. -/
theorem UnBlock_idempotent (q : ConcurrentQueue T) :
    (UnBlock q).1.block_ = false ∧ (UnBlock q).1.queue_ = q.queue_ ∧
      (UnBlock q).1.capacity_ = q.capacity_ ∧
      (UnBlock (UnBlock q).1).1 = (UnBlock q).1 ∧
      (UnBlock (UnBlock q).1).2 = (UnBlock q).2 ∧
      (UnBlock q).2 = [.notify_all .queue_push_cv_, .notify_all .queue_pop_cv_] :=
  ⟨rfl, rfl, rfl, rfl, rfl, rfl⟩

/-- C12: after `UnBlock()` then `SetBlock()` the mode is Blocking and buffer and
capacity are unchanged, so a following `Push` on a full queue parks again
instead of returning `false`, and a following `Pop` on an empty queue parks
again. -/
theorem mode_restorable (q : ConcurrentQueue T) (x : T) :
    (SetBlock (UnBlock q).1).block_ = true ∧
      (SetBlock (UnBlock q).1).queue_ = q.queue_ ∧
      (SetBlock (UnBlock q).1).capacity_ = q.capacity_ ∧
      (Size q = Capacity q →
        (Push (SetBlock (UnBlock q).1) x).ret = .waiting .queue_push_cv_ ∧
        (Push (UnBlock q).1 x).ret = .returned false) ∧
      (Empty q = true →
        (Pop (SetBlock (UnBlock q).1) x).ret = .waiting .queue_pop_cv_ ∧
        (Pop (UnBlock q).1 x).ret = .returned false) := by
  obtain ⟨buf, cap, mode⟩ := q
  refine ⟨rfl, rfl, rfl, ?_, ?_⟩
  · intro h
    simp only [Size, Capacity] at h
    simp [Push, SetBlock, UnBlock, h]
  · intro h
    simp only [Empty, List.isEmpty_iff] at h
    simp [Pop, SetBlock, UnBlock, h]

/-- Witness of C12: a full queue of capacity 2 and an empty one, both taken
through `UnBlock()` and `SetBlock()`. -/
theorem mode_restorable_witness :
    (Push (SetBlock (UnBlock (⟨[1, 2], 2, true⟩ : ConcurrentQueue Nat)).1) 3).ret =
        .waiting .queue_push_cv_ ∧
      (Pop (SetBlock (UnBlock (⟨[], 2, true⟩ : ConcurrentQueue Nat)).1) 3).ret =
        .waiting .queue_pop_cv_ :=
  ⟨((mode_restorable (⟨[1, 2], 2, true⟩ : ConcurrentQueue Nat) 3).2.2.2.1 rfl).1,
   ((mode_restorable (⟨[], 2, true⟩ : ConcurrentQueue Nat) 3).2.2.2.2 rfl).1⟩

/-- C13: a queue constructed with capacity 0 exists, and in every state
reachable from it the buffer is empty, `Push` never returns `true` (it parks in
Blocking mode and returns `false` in Unblocked mode), and `Pop` and `Peek` never
return `true`. -/
theorem zero_capacity (ds : List (Sched T)) (x : T) :
    Capacity (ConcurrentQueue.ctor 0 : ConcurrentQueue T) = 0 ∧
      ((System.init 0).steps ds).shared.queue_ = [] ∧
      (Push ((System.init 0).steps ds).shared x).ret ≠ .returned true ∧
      (PushConstRef ((System.init 0).steps ds).shared x).ret ≠ .returned true ∧
      (((System.init 0).steps ds).shared.block_ = true →
        (Push ((System.init 0).steps ds).shared x).ret = .waiting .queue_push_cv_) ∧
      (((System.init 0).steps ds).shared.block_ = false →
        (Push ((System.init 0).steps ds).shared x).ret = .returned false) ∧
      (Pop ((System.init 0).steps ds).shared x).ret ≠ .returned true ∧
      (Peek ((System.init 0).steps ds).shared x).ret ≠ .returned true := by
  have hle := steps_size_le (System.init 0 : System T) ds (ctor_size_le 0)
  have hcap := steps_capacity (System.init 0 : System T) ds
  generalize ((System.init 0 : System T).steps ds).shared = q at hle hcap ⊢
  obtain ⟨buf, cap, mode⟩ := q
  simp only [Size, Capacity, System.init, ConcurrentQueue.ctor] at hle hcap
  subst hcap
  have hbuf : buf = [] := List.length_eq_zero.mp (Nat.le_zero.mp hle)
  subst hbuf
  refine ⟨rfl, rfl, ?_, ?_, ?_, ?_, ?_, ?_⟩
  · cases mode <;> simp [Push]
  · cases mode <;> simp [PushConstRef]
  · intro h; simp only at h; subst h; simp [Push]
  · intro h; simp only at h; subst h; simp [Push]
  · cases mode <;> simp [Pop]
  · cases mode <;> simp [Peek]

/-- Witness of C13: capacity 0 after `UnBlock()`, where `Push(7)` returns
`false`. -/
theorem zero_capacity_witness :
    (Push ((System.init 0).steps [Sched.call (Op.UnBlock : Op Nat)]).shared 7).ret =
      .returned false :=
  (zero_capacity [Sched.call (Op.UnBlock : Op Nat)] 7).2.2.2.2.2.1 (by decide)

/-! ## The two overloads of Push -/

theorem PushConstRef_eq_Push (q : ConcurrentQueue T) (x : T) :
    PushConstRef q x = Push q x := rfl

/-- C14 (defect in the source): the two overloads of `Push` are the same
statement for statement except for the insertion, and there the move overload
calls `queue_.push`, which `std::queue` declares, while the copy overload calls
`queue_.push_back`, which it does not: the body of `Push(const T&)` is
ill-formed once instantiated, so the copy overload yields no outcome to
compare. -/
theorem Push_overloads_insertion :
    Push.body.all Stmt.wellFormed = true ∧
      PushConstRef.body.all Stmt.wellFormed = false ∧
      PushConstRef.body.filter (fun st => !st.wellFormed) = [Stmt.queue .push_back] ∧
      PushConstRef.body.map (fun st => if st = Stmt.queue .push_back then Stmt.queue .push
        else st) = Push.body := by
  decide

/-! ## Lock discipline -/

/-- C17 (defect in the source): `Push`, `Pop`, `Peek`, `UnBlock` and `SetBlock`
touch the buffer and the mode flag only while `mu_` is held, but `Empty()` and
`Size()` read `queue_` without taking `mu_`. -/
theorem observers_read_unlocked :
    lockDiscipline false Push.body = true ∧
      lockDiscipline false PushConstRef.body = true ∧
      lockDiscipline false Pop.body = true ∧
      lockDiscipline false Peek.body = true ∧
      lockDiscipline false UnBlock.body = true ∧
      lockDiscipline false SetBlock.body = true ∧
      lockDiscipline false Empty.body = false ∧
      lockDiscipline false Size.body = false := by
  decide

/-! ## Notifications -/

/-- C18: a `Push` pass that returns `true` issues exactly one `notify_one`, on
`queue_pop_cv_`; a `Pop` pass that returns `true` issues exactly one
`notify_one`, on `queue_push_cv_`; a `Peek` pass that returns `true` issues
exactly one `notify_one`, on `queue_pop_cv_`; a `Push`, `Pop` or `Peek` pass
that returns `false` issues none; and a pass that ends in `wait` issues none
either, so a call notifies only in the pass in which it returns `true`. -/
theorem signalled_condition (q : ConcurrentQueue T) (x : T) :
    ((Push q x).ret = .returned true →
        (Push q x).signals = [.notify_one .queue_pop_cv_]) ∧
      ((PushConstRef q x).ret = .returned true →
        (PushConstRef q x).signals = [.notify_one .queue_pop_cv_]) ∧
      ((Pop q x).ret = .returned true →
        (Pop q x).signals = [.notify_one .queue_push_cv_]) ∧
      ((Peek q x).ret = .returned true →
        (Peek q x).signals = [.notify_one .queue_pop_cv_]) ∧
      ((Push q x).ret = .returned false → (Push q x).signals = []) ∧
      ((PushConstRef q x).ret = .returned false → (PushConstRef q x).signals = []) ∧
      ((Pop q x).ret = .returned false → (Pop q x).signals = []) ∧
      ((Peek q x).ret = .returned false → (Peek q x).signals = []) ∧
      (∀ cv, (Push q x).ret = .waiting cv → (Push q x).signals = []) ∧
      (∀ cv, (PushConstRef q x).ret = .waiting cv → (PushConstRef q x).signals = []) ∧
      (∀ cv, (Pop q x).ret = .waiting cv → (Pop q x).signals = []) ∧
      (∀ cv, (Peek q x).ret = .waiting cv → (Peek q x).signals = []) := by
  obtain ⟨buf, cap, mode⟩ := q
  refine ⟨?_, ?_, ?_, ?_, ?_, ?_, ?_, ?_, ?_, ?_, ?_, ?_⟩
  · simp only [Push]; split_ifs <;> simp
  · simp only [PushConstRef]; split_ifs <;> simp
  · cases buf <;> cases mode <;> simp [Pop]
  · cases buf <;> cases mode <;> simp [Peek]
  · simp only [Push]; split_ifs <;> simp
  · simp only [PushConstRef]; split_ifs <;> simp
  · cases buf <;> cases mode <;> simp [Pop]
  · cases buf <;> cases mode <;> simp [Peek]
  · intro cv; simp only [Push]; split_ifs <;> simp
  · intro cv; simp only [PushConstRef]; split_ifs <;> simp
  · intro cv; cases buf <;> cases mode <;> simp [Pop]
  · intro cv; cases buf <;> cases mode <;> simp [Peek]

/-- Witness of C18: on capacity 2 holding `[1]`, a successful `Push`, `Pop` and
`Peek`; on a full resp. empty Unblocked queue, a failing `Push` and `Pop`; on a
full resp. empty Blocking queue, a `Push` and a `Pop` that end in `wait`. -/
theorem signalled_condition_witness :
    (Push (⟨[1], 2, true⟩ : ConcurrentQueue Nat) 5).signals =
        [.notify_one .queue_pop_cv_] ∧
      (Pop (⟨[1], 2, true⟩ : ConcurrentQueue Nat) 5).signals =
        [.notify_one .queue_push_cv_] ∧
      (Peek (⟨[1], 2, true⟩ : ConcurrentQueue Nat) 5).signals =
        [.notify_one .queue_pop_cv_] ∧
      (Push (⟨[1, 2], 2, false⟩ : ConcurrentQueue Nat) 5).signals = [] ∧
      (Pop (⟨[], 2, false⟩ : ConcurrentQueue Nat) 5).signals = [] ∧
      (Push (⟨[1, 2], 2, true⟩ : ConcurrentQueue Nat) 5).signals = [] ∧
      (Pop (⟨[], 2, true⟩ : ConcurrentQueue Nat) 5).signals = [] :=
  ⟨(signalled_condition (⟨[1], 2, true⟩ : ConcurrentQueue Nat) 5).1 (by decide),
   (signalled_condition (⟨[1], 2, true⟩ : ConcurrentQueue Nat) 5).2.2.1 (by decide),
   (signalled_condition (⟨[1], 2, true⟩ : ConcurrentQueue Nat) 5).2.2.2.1 (by decide),
   (signalled_condition (⟨[1, 2], 2, false⟩ : ConcurrentQueue Nat) 5).2.2.2.2.1 (by decide),
   (signalled_condition (⟨[], 2, false⟩ : ConcurrentQueue Nat) 5).2.2.2.2.2.2.1 (by decide),
   (signalled_condition (⟨[1, 2], 2, true⟩ : ConcurrentQueue Nat) 5).2.2.2.2.2.2.2.2.1
     .queue_push_cv_ (by decide),
   (signalled_condition (⟨[], 2, true⟩ : ConcurrentQueue Nat) 5).2.2.2.2.2.2.2.2.2.2.1
     .queue_pop_cv_ (by decide)⟩

/-! ## Frame of the mode flag -/

/-- C19: a pass of `Push`, `Pop` or `Peek` leaves the mode flag as it was,
whether it returns `true`, returns `false` or parks; the bodies of `Push`, `Pop`,
`Peek`, `Empty`, `Size` and `Capacity` contain no write of the mode flag, those
of the three observers no write of the buffer either, while `UnBlock` and
`SetBlock` do write the flag; and `Empty()` is `true` exactly when `Size()` is
0. -/
theorem mode_frame (q : ConcurrentQueue T) (x : T) :
    (Push q x).q.block_ = q.block_ ∧
      (PushConstRef q x).q.block_ = q.block_ ∧
      (Pop q x).q.block_ = q.block_ ∧
      (Peek q x).q.block_ = q.block_ ∧
      (Push.body ++ PushConstRef.body ++ Pop.body ++ Peek.body ++ Empty.body ++ Size.body ++
        Capacity.body).all (fun st => !st.writesBlock) = true ∧
      (Empty.body ++ Size.body ++ Capacity.body).all (fun st => !st.writesQueue) = true ∧
      UnBlock.body.any Stmt.writesBlock = true ∧
      SetBlock.body.any Stmt.writesBlock = true ∧
      (UnBlock q).1.block_ = false ∧ (SetBlock q).block_ = true ∧
      (Empty q = true ↔ Size q = 0) := by
  obtain ⟨buf, cap, mode⟩ := q
  refine ⟨?_, ?_, ?_, ?_, by decide, by decide, by decide, by decide, rfl, rfl, ?_⟩
  · simp only [Push]; split_ifs <;> rfl
  · simp only [PushConstRef]; split_ifs <;> rfl
  · cases buf <;> cases mode <;> simp [Pop]
  · cases buf <;> cases mode <;> simp [Peek]
  · cases buf <;> simp [Empty, Size]

/-! ## The mode and suspension -/

/-- C20: run the same finite sequence of `Push`/`Pop`/`Peek` passes on two
queues with the same capacity and the same buffer, one Blocking and one
Unblocked; if no pass of the Blocking run parks, both runs give the same events
(return values, `out` values, notifications) and the same final buffer, and
every return value is `true`. -/
theorem mode_matters_only_at_suspension (c : Nat) (buf : List T) (ops : List (Op T))
    (hle : buf.length ≤ c) (hdata : ∀ op ∈ ops, op.isData = true)
    (hnp : ∀ e ∈ (run (⟨buf, c, true⟩ : ConcurrentQueue T) ops).2, e.parks = false) :
    (run (⟨buf, c, false⟩ : ConcurrentQueue T) ops).2 =
        (run (⟨buf, c, true⟩ : ConcurrentQueue T) ops).2 ∧
      (run (⟨buf, c, false⟩ : ConcurrentQueue T) ops).1.queue_ =
        (run (⟨buf, c, true⟩ : ConcurrentQueue T) ops).1.queue_ ∧
      ∀ e ∈ (run (⟨buf, c, true⟩ : ConcurrentQueue T) ops).2,
        e.ret = some (.returned true) := by
  induction ops generalizing buf with
  | nil => simp [run]
  | cons op ops ih =>
    simp only [run, List.mem_cons, forall_eq_or_imp] at hnp ⊢
    have hop := exec_mode_irrelevant buf c op hle
      (hdata op (List.mem_cons_self _ _)) hnp.1
    obtain ⟨h1, h2, h3, h4, h5⟩ := hop
    rw [h3] at hnp
    have ih2 := ih (exec (⟨buf, c, true⟩ : ConcurrentQueue T) op).1.queue_ h5
      (fun o ho => hdata o (List.mem_cons_of_mem _ ho)) hnp.2
    rw [h1, h2, h3]
    exact ⟨by rw [ih2.1], ih2.2.1, h4, ih2.2.2⟩

/-- Witness of C20: capacity 2, buffer `[1]`, the passes `Push(2)`, `Peek`,
`Pop`, `Pop`. -/
theorem mode_matters_only_at_suspension_witness :
    (run (⟨[1], 2, false⟩ : ConcurrentQueue Nat)
        [Op.Push 2, Op.Peek 0, Op.Pop 0, Op.Pop 0]).2 =
      (run (⟨[1], 2, true⟩ : ConcurrentQueue Nat)
        [Op.Push 2, Op.Peek 0, Op.Pop 0, Op.Pop 0]).2 :=
  (mode_matters_only_at_suspension 2 [1] [Op.Push 2, Op.Peek 0, Op.Pop 0, Op.Pop 0]
    (by decide) (by decide) (by decide)).1

/-! ## Waiters -/

/-- C16 as stated fails.  On capacity 1, `Push(1)` is accepted and `Push(2)`
parks on the full queue.  After the `Pop` of another thread, a `Push(9)` that
enters before the pending call re-takes the lock finds room and is accepted; the
pending `Push(2)` then finds the queue full on every wake-up and stays parked,
so no pending `Push` is accepted. -/
theorem handoff_slot_taken_by_entering_Push :
    ((System.init 1).steps [.call (.Push 1), .call (.Push 2)] : System Nat) =
        ⟨⟨[1], 1, true⟩, [Op.Push 2]⟩ ∧
      (Pop (⟨[1], 1, true⟩ : ConcurrentQueue Nat) 0).ret = .returned true ∧
      (Push (Pop (⟨[1], 1, true⟩ : ConcurrentQueue Nat) 0).q 9).ret = .returned true ∧
      ((System.init 1).steps [.call (.Push 1), .call (.Push 2), .call (.Pop 0),
        .call (.Push 9), .wake 0, .wake 0] : System Nat) =
        ⟨⟨[9], 1, true⟩, [Op.Push 2]⟩ := by
  decide

/-- C16, amended: on a full queue in Blocking mode a `Push` parks, and so does
every further `Push`, however often they wake.  A `Pop` by another thread then
returns the head and notifies one push waiter.  If the next pass after that
`Pop` is the wake-up of a pending `Push` (any of them), that `Push` is accepted
at the tail and leaves the parked calls; the queue is full again, so every other
pending `Push` stays parked however often it wakes.  The `Pop`s that follow
return the elements that were in the buffer before the accepted one, in order,
and the accepted one last. -/
theorem handoff_through_full_queue (q : ConcurrentQueue T) (h : T) (rest pre post : List T)
    (x o : T) (ws : List Nat)
    (hq : q.queue_ = h :: rest) (hfull : Size q = Capacity q) (hm : q.block_ = true) :
    (Push q x).ret = .waiting .queue_push_cv_ ∧
      (⟨q, []⟩ : System T).steps ((pre ++ x :: post).map (fun y => Sched.call (Op.Push y))) =
        ⟨q, (pre ++ x :: post).map Op.Push⟩ ∧
      (⟨q, (pre ++ x :: post).map Op.Push⟩ : System T).steps (ws.map Sched.wake) =
        ⟨q, (pre ++ x :: post).map Op.Push⟩ ∧
      exec q (Op.Pop o) = ({ q with queue_ := rest },
        ⟨Op.Pop o, some (.returned true), some h, [.notify_one .queue_push_cv_]⟩) ∧
      ((⟨q, (pre ++ x :: post).map Op.Push⟩ : System T).step (.call (.Pop o))).step
          (.wake pre.length) =
        ⟨{ q with queue_ := rest ++ [x] }, (pre ++ post).map Op.Push⟩ ∧
      (⟨{ q with queue_ := rest ++ [x] }, (pre ++ post).map Op.Push⟩ : System T).steps
          (ws.map Sched.wake) =
        ⟨{ q with queue_ := rest ++ [x] }, (pre ++ post).map Op.Push⟩ ∧
      (run { q with queue_ := rest ++ [x] }
          ((List.replicate (rest.length + 1) o).map Op.Pop)).2.map Event.ret =
        List.replicate (rest.length + 1) (some (.returned true)) ∧
      (run { q with queue_ := rest ++ [x] }
          ((List.replicate (rest.length + 1) o).map Op.Pop)).2.map Event.out =
        (rest ++ [x]).map some := by
  obtain ⟨buf, cap, mode⟩ := q
  simp only [Size, Capacity] at hq hfull hm
  subst hq hm
  simp only [List.length_cons] at hfull
  subst hfull
  have hpop : exec (⟨h :: rest, rest.length + 1, true⟩ : ConcurrentQueue T) (Op.Pop o) =
      (⟨rest, rest.length + 1, true⟩,
        ⟨Op.Pop o, some (.returned true), some h, [.notify_one .queue_push_cv_]⟩) := by
    simp [exec, Pop]
  have hpush : exec (⟨rest, rest.length + 1, true⟩ : ConcurrentQueue T) (Op.Push x) =
      (⟨rest ++ [x], rest.length + 1, true⟩,
        ⟨Op.Push x, some (.returned true), none, [.notify_one .queue_pop_cv_]⟩) := by
    simp [exec, Push]
  have hget : ((pre ++ x :: post).map (Op.Push : T → Op T)).get? pre.length =
      some (Op.Push x) := by
    have := get?_length_append (pre.map (Op.Push : T → Op T)) (post.map Op.Push) (Op.Push x)
    simpa using this
  have herase : ((pre ++ x :: post).map (Op.Push : T → Op T)).eraseIdx pre.length =
      (pre ++ post).map Op.Push := by
    have := eraseIdx_length_append (pre.map (Op.Push : T → Op T)) (post.map Op.Push)
      (Op.Push x)
    simpa using this
  have hpops := run_pops (⟨rest ++ [x], rest.length + 1, true⟩ : ConcurrentQueue T)
    (List.replicate (rest.length + 1) o) (by simp)
  refine ⟨by simp [Push], ?_, ?_, hpop, ?_, ?_, ?_, ?_⟩
  · have := calls_park_pushes (⟨h :: rest, rest.length + 1, true⟩ : ConcurrentQueue T) []
      (pre ++ x :: post) (by simp) rfl
    simpa using this
  · exact wakes_full_blocking _ (pre ++ x :: post) ws (by simp) rfl
  · have h1 : (⟨⟨h :: rest, rest.length + 1, true⟩, (pre ++ x :: post).map Op.Push⟩ :
        System T).step (.call (.Pop o)) =
        ⟨⟨rest, rest.length + 1, true⟩, (pre ++ x :: post).map Op.Push⟩ := by
      simp only [System.step, hpop, Event.parks, Ret.suspends]
      rfl
    rw [h1]
    simp only [System.step]
    rw [hget]
    simp only [hpush, Event.parks, Ret.suspends, herase]
    rfl
  · exact wakes_full_blocking _ (pre ++ post) ws (by simp) rfl
  · simpa using hpops.2.1
  · have := hpops.2.2
    simp only [List.length_replicate] at this
    rw [this]
    congr 1
    exact List.take_of_length_le (by simp)

/-- Witness of C16: capacity 2 holding `[1, 2]`, the pushes of 3 and 4 pending,
one `Pop`; the push of 4 wakes first and is accepted, the push of 3 stays
parked. -/
theorem handoff_through_full_queue_witness :
    ((((System.init 2).steps
        [.call (.Push 1), .call (.Push 2), .call (.Push 3), .call (.Push 4)]).step
        (.call (.Pop 0))).step (.wake 1) : System Nat) =
      ⟨⟨[2, 4], 2, true⟩, [Op.Push 3]⟩ :=
  (show (((System.init 2).steps
        [.call (.Push 1), .call (.Push 2), .call (.Push 3), .call (.Push 4)]).step
        (.call (.Pop 0))).step (.wake 1) =
      (((⟨⟨[1, 2], 2, true⟩, [Op.Push 3, Op.Push 4]⟩ : System Nat).step
        (.call (.Pop 0))).step (.wake 1)) from by decide).trans
    (handoff_through_full_queue (⟨[1, 2], 2, true⟩ : ConcurrentQueue Nat) 1 [2] [3] [] 4 0 []
      rfl rfl rfl).2.2.2.2.1

end bcq
